import Mathlib

/-!
# xc3sprog: the XPC cable transport constants and the Tcl JTAG binding

A shallow embedding of `src/ioxpc.h` (GPIO masks, buffer sizing, the
ext-transfer state) and of `src/tcljtag.cpp` (the `TclJTAG` command
object), followed by the properties proved about them.

Conventions of the embedding:
* a C `int` is a Lean `Int`; the bit operations `&`, `|`, `<<` act on the
  32-bit two's-complement pattern of their operands (`bits32`, `toInt32`);
* an `unsigned char` is a `Fin 256`, a 4-byte member buffer is `Buf4`;
* a `std::auto_ptr<T>` member is an `Option T`; dereferencing an empty one
  is a fault, modelled by the result `none`;
* what the external collaborators (cable database, `getIO`, the `Jtag`
  chain object, the device database) answer during one command is the
  parameter `Env`.
-/

namespace Xc3sprog

/-! ## Definitions: `src/ioxpc.h` -/

/-- Mask of the PROG line in the GPIO register: `#define XPC_PROG (1<<3)`. -/
def XPC_PROG : Nat := 1 <<< 3

/-- Mask of the TCK line: `#define XPC_TCK (1<<2)`. -/
def XPC_TCK : Nat := 1 <<< 2

/-- Mask of the TMS line: `#define XPC_TMS (1<<1)`. -/
def XPC_TMS : Nat := 1 <<< 1

/-- Mask of the TDI line: `#define XPC_TDI (1<<0)`. -/
def XPC_TDI : Nat := 1 <<< 0

/-- Mask of the TDO pin in the register that is read back: `#define XPC_TDO (1<<0)`. -/
def XPC_TDO : Nat := 1 <<< 0

/-- Size of the transfer buffer: `#define CPLD_MAX_BYTES (1<<12)`. -/
def CPLD_MAX_BYTES : Nat := 1 <<< 12

/-- Bytes taken by `n` write-direction bits; the comment above
`xpc_ext_transfer_state_t` says "each 2 bytes hold 4 bits for write". -/
def writeBytes (n : Nat) : Nat := 2 * ((n + 3) / 4)

/-- Bytes taken by `n` read-direction bits; the same comment says
"each byte holds 8 bits for read". -/
def readBytes (n : Nat) : Nat := (n + 7) / 8

/-- Mask contributed by one line: its mask when asserted, nothing otherwise. -/
def lineBit (mask : Nat) (asserted : Bool) : Nat := if asserted then mask else 0

/-- Register value carrying the four line states: the masks of the asserted
lines OR-ed together, the `unsigned char bits` that `xpcu_write_gpio` takes. -/
def gpioBits (prog tck tms tdi : Bool) : Nat :=
  lineBit XPC_PROG prog ||| lineBit XPC_TCK tck ||| lineBit XPC_TMS tms ||| lineBit XPC_TDI tdi

/-- State of one line in a register value: the value AND-ed with the line's mask. -/
def lineOf (mask bits : Nat) : Bool := decide (bits &&& mask ≠ 0)

/-! ## Definitions: C integers -/

/-- The 32-bit two's-complement pattern of an `int`. -/
def bits32 (x : Int) : Nat := (x % 2 ^ 32).toNat

/-- The `int` whose two's-complement pattern is the low 32 bits of `p`. -/
def toInt32 (p : Nat) : Int :=
  if p % 2 ^ 32 < 2 ^ 31 then ((p % 2 ^ 32 : Nat) : Int) else ((p % 2 ^ 32 : Nat) : Int) - 2 ^ 32

/-- The C expression `a & b` on `int`. -/
def band32 (a b : Int) : Int := toInt32 (bits32 a &&& bits32 b)

/-- The C expression `a | b` on `int`. -/
def bor32 (a b : Int) : Int := toInt32 (bits32 a ||| bits32 b)

/-- The C expression `a << s` on `int`, bits shifted past bit 31 dropped. -/
def shl32 (a : Int) (s : Nat) : Int := toInt32 (bits32 a <<< s)

/-- The C expression `a >> s` on `int`: arithmetic shift, the sign is kept. -/
def sar32 (a : Int) (s : Nat) : Int := a >>> s

/-- An `unsigned char`. -/
abbrev UChar := Fin 256

/-- Conversion of an `int` to `unsigned char`: its low 8 bits. -/
def toUChar (x : Int) : UChar := ⟨bits32 x % 256, Nat.mod_lt _ (by decide)⟩

/-- A member buffer `unsigned char buf[4]`. -/
abbrev Buf4 := Fin 4 → UChar

/-! ## Definitions: `src/tcljtag.cpp` -/

/-- Tcl's success code. -/
def TCL_OK : Int := 0

/-- Tcl's error code. -/
def TCL_ERROR : Int := 1

/-- An argument object of a Tcl command: its string form, and the `int` that
`Tcl_GetIntFromObj` reads from it, if it reads one. -/
structure Tcl_Obj where
  str : String
  intRep : Option Int

/-- `Tcl_GetIntFromObj(interp, obj, &dst)`: the return code and the new value
of `dst`, which keeps its old value when the conversion fails. -/
def Tcl_GetIntFromObj (obj : Tcl_Obj) (dst : Int) : Int × Int :=
  match obj.intRep with
  | some v => (TCL_OK, v)
  | none => (TCL_ERROR, dst)

/-- The value a command leaves in the interpreter. -/
inductive TclValue where
  | int (v : Int)
  | str (s : String)
deriving DecidableEq, Repr

/-- An I/O object (`IOBase`), identified by the device handle it owns. -/
structure IOBase where
  handle : Nat
deriving DecidableEq, Repr

/-- The chain object: the I/O pointer it was built on, its verbosity and
the number of devices `getChain()` reports. -/
structure Jtag where
  io : Option IOBase
  verbose : Bool
  numDevices : Int
deriving DecidableEq, Repr

/-- A member function called through `j->jtag`. -/
inductive JtagCall where
  | setVerbose
  | detect_chain
  | getVerbose
  | getChain
  | getChainDetect
  | selectDevice (chainpos : Int)
  | getDeviceID (chainpos : Int)
  | shiftIR
  | shiftDR (length : Int)
deriving DecidableEq, Repr

/-- The data members of `class TclJTAG` that the commands read or write. -/
structure TclJTAG where
  connected : Bool
  jtag : Option Jtag
  io : Option IOBase
  verbose : Bool
  irbuf : Buf4
  drbuf : Buf4
  outbuf : Buf4

/-- Answers of the external collaborators during one command. -/
structure Env where
  /-- `CableDB::getCable(name, &cable)`: 0 when the cable is known. -/
  getCable : String → Int
  /-- Return value of `getIO`. -/
  getIO_res : Int
  /-- What `getIO` has stored through its `auto_ptr<IOBase>*` argument. -/
  getIO_io : Option IOBase
  /-- Number of devices a chain detection finds. -/
  chain : Int
  /-- `Jtag::selectDevice(chainpos)`: negative on failure. -/
  selectDevice : Int → Int
  /-- `Jtag::getDeviceID(chainpos)`, an `unsigned long`. -/
  getDeviceID : Int → Nat
  /-- `DeviceDB::idToDescription`. -/
  idToDescription : Int → String
  /-- Contents of the capture buffer after `Jtag::shiftIR(tdi, tdo)`, from the
  bytes sent and the buffer's previous contents. -/
  shiftIR : Buf4 → Buf4 → Buf4
  /-- Contents of the capture buffer after `Jtag::shiftDR(tdi, tdo, length)`. -/
  shiftDR : Buf4 → Buf4 → Int → Buf4

/-- What one command invocation produces: the return code, the object behind
`cdata` afterwards, the interpreter result it set, and the calls it made
through `j->jtag`, in order. -/
structure Ret where
  code : Int
  obj : Option TclJTAG
  result : Option TclValue
  calls : List JtagCall

/-- The constructor's member initialisers: `connected(false)`, `jtag(NULL)`,
`verbose(false)`, an empty `io`; the three buffers are not initialised. -/
def TclJTAG.init (irbuf drbuf outbuf : Buf4) : TclJTAG :=
  { connected := false, jtag := none, io := none, verbose := false,
    irbuf := irbuf, drbuf := drbuf, outbuf := outbuf }

/-- `TclJTAG::GetJTAG`: the object, unless `cdata` is null or no cable is connected. -/
def GetJTAG (cdata : Option TclJTAG) : Option TclJTAG :=
  match cdata with
  | none => none
  | some result => if !result.connected then none else some result

/-- `TclJTAG::closecable`. -/
def closecable (cdata : Option TclJTAG) : Ret :=
  match cdata with
  | none => ⟨TCL_ERROR, none, none, []⟩
  | some j =>
    if !j.connected then ⟨TCL_ERROR, some j, none, []⟩
    else ⟨TCL_OK, some { j with jtag := none, io := none, connected := false }, none, []⟩

/-- `detect_chain(jtag, &devicedb)`: the chain object afterwards. -/
def detect_chain (jt : Jtag) (e : Env) : Jtag := { jt with numDevices := e.chain }

/-- `TclJTAG::opencable`. -/
def opencable (cdata : Option TclJTAG) (objv : List Tcl_Obj) (e : Env) : Ret :=
  match cdata with
  | none => ⟨TCL_ERROR, none, none, []⟩
  | some j0 =>
    let j1 : TclJTAG := { j0 with jtag := none, io := none, connected := false }
    match objv with
    | [_] => ⟨TCL_ERROR, some j1, none, []⟩
    | [_, name] =>
      if e.getCable name.str ≠ 0 then ⟨TCL_ERROR, some j1, none, []⟩
      else
        let j2 : TclJTAG := { j1 with io := e.getIO_io }
        if e.getIO_res ≠ 0 then ⟨TCL_ERROR, some j2, none, []⟩
        else
          let jt : Jtag := detect_chain { io := j2.io, verbose := j2.verbose, numDevices := -1 } e
          let j3 : TclJTAG := { j2 with jtag := some jt }
          let calls := [JtagCall.setVerbose, JtagCall.detect_chain, JtagCall.getChain]
          if jt.numDevices = 0 then ⟨TCL_ERROR, some j3, none, calls⟩
          else ⟨TCL_OK, some { j3 with connected := true }, some (TclValue.str "1"), calls⟩
    | _ => ⟨TCL_ERROR, some j1, none, []⟩

/-- The member bytes written from an `int`:
`buf[0]=v&255; buf[1]=(v>>8)&255; buf[2]=(v>>16)&255; buf[3]=(v>>24)&255`. -/
def storeInt (v : Int) : Buf4 := fun i => toUChar (band32 (sar32 v (8 * i.val)) 255)

/-- `TclJTAG::shift_ir`. -/
def shift_ir (cdata : Option TclJTAG) (objv : List Tcl_Obj) (e : Env) : Option Ret :=
  match GetJTAG cdata with
  | none => some ⟨TCL_ERROR, cdata, none, []⟩
  | some j =>
    match objv with
    | [_, a1] =>
      match Tcl_GetIntFromObj a1 0 with
      | (res, irval) =>
        if res = TCL_OK then
          match j.jtag with
          | none => none
          | some _ =>
            let irbuf := storeInt irval
            some ⟨res, some { j with irbuf := irbuf, outbuf := e.shiftIR irbuf j.outbuf }, none,
              [JtagCall.shiftIR]⟩
        else some ⟨res, some j, none, []⟩
    | _ => some ⟨TCL_OK, some j, none, []⟩

/-- The read-back loop of `shift_dr`, from index `i` down to 0:
`for(...;i>=0;--i) if(i<4) drval|=j->outbuf[i]<<(i*8);`. -/
def collect (outbuf : Buf4) (i : Nat) (drval : Int) : Int :=
  let drval1 := if h : i < 4 then bor32 drval (shl32 (outbuf ⟨i, h⟩).val (i * 8)) else drval
  match i with
  | 0 => drval1
  | k + 1 => collect outbuf k drval1

/-- The value `shift_dr` returns to Tcl: `drval=0`, then the loop started at
`i=(length-1)/8` (C division, rounding toward zero). -/
def readBack (outbuf : Buf4) (length : Int) : Int :=
  let i := Int.tdiv (length - 1) 8
  if 0 ≤ i then collect outbuf i.toNat 0 else 0

/-- `TclJTAG::shift_dr`. -/
def shift_dr (cdata : Option TclJTAG) (objv : List Tcl_Obj) (e : Env) : Option Ret :=
  match GetJTAG cdata with
  | none => some ⟨TCL_ERROR, cdata, none, []⟩
  | some j =>
    match objv with
    | [_, a1, a2] =>
      match Tcl_GetIntFromObj a1 0 with
      | (res1, drval) =>
        if res1 = TCL_OK then
          match Tcl_GetIntFromObj a2 0 with
          | (res2, length) =>
            if res2 = TCL_OK then
              match j.jtag with
              | none => none
              | some _ =>
                let drbuf := storeInt drval
                let outbuf := e.shiftDR drbuf j.outbuf length
                some ⟨res2, some { j with drbuf := drbuf, outbuf := outbuf },
                  some (TclValue.int (readBack outbuf length)), [JtagCall.shiftDR length]⟩
            else some ⟨res2, some j, none, []⟩
        else some ⟨res1, some j, none, []⟩
    | _ => some ⟨TCL_ERROR, some j, none, []⟩

/-- `TclJTAG::detectchain`. -/
def detectchain (cdata : Option TclJTAG) (e : Env) : Option Ret :=
  match GetJTAG cdata with
  | none => some ⟨TCL_ERROR, cdata, none, []⟩
  | some j =>
    if !j.connected then some ⟨TCL_ERROR, some j, none, []⟩
    else
      match j.jtag with
      | none => none
      | some jt =>
        let jt1 := detect_chain jt e
        let j1 : TclJTAG := { j with jtag := some jt1 }
        let calls := [JtagCall.detect_chain, JtagCall.getChainDetect]
        if jt1.numDevices ≠ 0 then some ⟨TCL_ERROR, some j1, none, calls⟩
        else some ⟨TCL_OK, some j1, none, calls⟩

/-- The first lines of `selectdevice`, `deviceid` and `devicedescription`:
`int chainpos=0; int res=0; if(objc>=2) res=Tcl_GetIntFromObj(interp,objv[1],&chainpos);`
giving `(res, chainpos)`. -/
def positionArg (objv : List Tcl_Obj) : Int × Int :=
  match objv with
  | _ :: a1 :: _ => Tcl_GetIntFromObj a1 0
  | _ => (0, 0)

/-- `TclJTAG::selectdevice`. -/
def selectdevice (cdata : Option TclJTAG) (objv : List Tcl_Obj) (e : Env) : Option Ret :=
  match GetJTAG cdata with
  | none => some ⟨TCL_ERROR, cdata, none, []⟩
  | some j =>
    match positionArg objv with
    | (res, chainpos) =>
      if res ≠ TCL_OK then some ⟨res, some j, none, []⟩
      else if !j.connected then some ⟨TCL_ERROR, some j, none, []⟩
      else
        match j.jtag with
        | none => none
        | some jt =>
          let num := jt.numDevices
          if chainpos < 0 ∨ chainpos ≥ num then
            some ⟨TCL_ERROR, some j, none, [JtagCall.getChain]⟩
          else if e.selectDevice chainpos < 0 then
            some ⟨TCL_ERROR, some j, none, [JtagCall.getChain, JtagCall.selectDevice chainpos]⟩
          else
            some ⟨TCL_OK, some j, none, [JtagCall.getChain, JtagCall.selectDevice chainpos]⟩

/-- The free function `get_id(jtag, db, chainpos)`: the id it returns and the
calls it makes; `none` when `jtag` is empty. -/
def get_id (jtag : Option Jtag) (e : Env) (chainpos : Int) : Option (Nat × List JtagCall) :=
  match jtag with
  | none => none
  | some _ =>
    if e.selectDevice chainpos < 0 then
      some (0, [JtagCall.getVerbose, JtagCall.getChain, JtagCall.selectDevice chainpos])
    else
      some (e.getDeviceID chainpos,
        [JtagCall.getVerbose, JtagCall.getChain, JtagCall.selectDevice chainpos,
          JtagCall.getDeviceID chainpos])

/-- `TclJTAG::deviceid`. -/
def deviceid (cdata : Option TclJTAG) (objv : List Tcl_Obj) (e : Env) : Option Ret :=
  match GetJTAG cdata with
  | none => some ⟨TCL_ERROR, cdata, none, []⟩
  | some j =>
    match positionArg objv with
    | (res, chainpos) =>
      if res ≠ TCL_OK then some ⟨res, some j, none, []⟩
      else
        match get_id j.jtag e chainpos with
        | none => none
        | some (id, calls) => some ⟨TCL_OK, some j, some (TclValue.int (toInt32 id)), calls⟩

/-- `TclJTAG::devicedescription`. -/
def devicedescription (cdata : Option TclJTAG) (objv : List Tcl_Obj) (e : Env) : Option Ret :=
  match GetJTAG cdata with
  | none => some ⟨TCL_ERROR, cdata, none, []⟩
  | some j =>
    match positionArg objv with
    | (res, chainpos) =>
      if res ≠ TCL_OK then some ⟨res, some j, none, []⟩
      else
        match get_id j.jtag e chainpos with
        | none => none
        | some (id, calls) =>
          some ⟨TCL_OK, some j, some (TclValue.str (e.idToDescription (toInt32 id))), calls⟩

/-- The commands registered by the constructor that act on the cable and the chain. -/
inductive Command where
  | open_cable
  | close_cable
  | select_device
  | get_device_id
  | get_device_description
  | detect_chain
  | shift_ir
  | shift_dr
deriving DecidableEq, Repr

/-- One command invocation: what it is, its arguments `objv` (the command
name first) and what the environment answers while it runs. -/
structure Invocation where
  cmd : Command
  objv : List Tcl_Obj
  env : Env

/-- The function `Tcl_CreateObjCommand` has bound to the command, applied to
`cdata`; `none` when it dereferences an empty `jtag`. -/
def dispatch (cdata : Option TclJTAG) (c : Invocation) : Option Ret :=
  match c.cmd with
  | Command.open_cable => some (opencable cdata c.objv c.env)
  | Command.close_cable => some (closecable cdata)
  | Command.select_device => selectdevice cdata c.objv c.env
  | Command.get_device_id => deviceid cdata c.objv c.env
  | Command.get_device_description => devicedescription cdata c.objv c.env
  | Command.detect_chain => detectchain cdata c.env
  | Command.shift_ir => shift_ir cdata c.objv c.env
  | Command.shift_dr => shift_dr cdata c.objv c.env

/-- The object after a command: the one the command left behind `cdata`. -/
def Ret.next (r : Ret) (j : TclJTAG) : TclJTAG := r.obj.getD j

/-- A session: the commands run one after the other on the object the
constructor registered as `cdata`; `none` when one of them faults. -/
def runSession (j : TclJTAG) : List Invocation → Option TclJTAG
  | [] => some j
  | c :: rest =>
    match dispatch (some j) c with
    | none => none
    | some r => runSession (r.next j) rest

/-- Neither handle is held. -/
def TclJTAG.holdsNone (j : TclJTAG) : Bool := j.jtag.isNone && j.io.isNone

/-- A buffer of four zero bytes. -/
def zeroBuf : Buf4 := fun _ => 0

/-- An environment for examples: every cable is known, `getIO` stores handle 1
and succeeds, the chain has `chain` devices, the shifts echo what is sent. -/
def loopEnv (chain : Int) : Env :=
  { getCable := fun _ => 0, getIO_res := 0, getIO_io := some ⟨1⟩, chain := chain,
    selectDevice := fun p => p, getDeviceID := fun _ => 0, idToDescription := fun _ => "",
    shiftIR := fun tdi _ => tdi, shiftDR := fun tdi _ _ => tdi }

/-- A Tcl argument holding an integer. -/
def intObj (v : Int) : Tcl_Obj := { str := toString v, intRep := some v }

/-- A Tcl argument holding a word that is no integer. -/
def wordObj (s : String) : Tcl_Obj := { str := s, intRep := none }

/-- Bit `k` of the byte of `outbuf` that covers position `k`. -/
def bufBit (outbuf : Buf4) (k : Nat) : Bool :=
  if h : k / 8 < 4 then (outbuf ⟨k / 8, h⟩).val.testBit (k % 8) else false

/-- An environment like `loopEnv 1` whose shifts capture `0xFF` in every byte
(TDO stuck high). -/
def stuckHighEnv : Env := { loopEnv 1 with shiftIR := fun _ _ _ => 255, shiftDR := fun _ _ _ _ => 255 }

/-- The object after the constructor, its buffers zeroed. -/
def freshObj : TclJTAG := TclJTAG.init zeroBuf zeroBuf zeroBuf

/-- The object after a successful `open_cable` on a chain of `chain` devices. -/
def openedObj (chain : Int) : TclJTAG :=
  { freshObj with connected := true, io := some ⟨1⟩, jtag := some ⟨some ⟨1⟩, false, chain⟩ }

/-- A sample session: a shift before any cable is open, an
`open_cable` that finds an empty chain, one that finds a device, a shift and a
selection on it, a `close_cable`, and a query after it. -/
def sampleSession : List Invocation :=
  [ ⟨Command.shift_dr, [wordObj "shift_dr", intObj 5, intObj 8], loopEnv 1⟩,
    ⟨Command.open_cable, [wordObj "open_cable", wordObj "xpc"], loopEnv 0⟩,
    ⟨Command.get_device_id, [wordObj "get_device_id"], loopEnv 0⟩,
    ⟨Command.open_cable, [wordObj "open_cable", wordObj "xpc"], loopEnv 1⟩,
    ⟨Command.shift_dr, [wordObj "shift_dr", intObj 5, intObj 8], loopEnv 1⟩,
    ⟨Command.select_device, [wordObj "select_device", intObj 0], loopEnv 1⟩,
    ⟨Command.close_cable, [wordObj "close_cable"], loopEnv 1⟩,
    ⟨Command.detect_chain, [wordObj "detect_chain"], loopEnv 1⟩ ]

/-! ## Definitions: the batching engine of `IOXPC`

`src/ioxpc.h` declares the ext-transfer state and the member functions below;
their bodies are not among the sources, so they are modelled from the
specification (sections 3, 4.1 and 4.2). How queued bits are laid out in the
bytes of `buf` is left open there (section 9), so `buf` is kept as the queue of
bits it encodes and its byte size is `writeBytes in_bits`. -/

/-- One queued bit: the TDI and TMS values to drive, and whether the TDO value
sampled with it is to be captured (it is a real bit and a capture destination
exists). -/
structure QueuedBit where
  tdi : Bool
  tms : Bool
  capture : Bool
deriving DecidableEq, Repr

/-- The struct `xpc_ext_transfer_state_t` of `src/ioxpc.h`: bits queued for
output, bits expected back, captured bits already written, the caller's
capture destination (`none` for a null pointer) and the buffer. -/
structure xpc_ext_transfer_state_t where
  in_bits : Nat
  out_bits : Nat
  out_done : Nat
  out : Option (List Nat)
  buf : List QueuedBit
deriving DecidableEq, Repr

/-- The adapter behind `xpcu_shift`: from the bit count, the queued bits and
the expected read length in bytes, the bytes returned (captured TDO values,
8 per byte, LSB first), or `none` when the USB transfer fails. -/
abbrev Channel := Nat → List QueuedBit → Nat → Option (List Nat)

/-- Bit `pos` of a byte buffer, LSB first within each byte; 0 past its end. -/
def getBitAt (bytes : List Nat) (pos : Nat) : Bool := (bytes.getD (pos / 8) 0).testBit (pos % 8)

/-- A byte with bit `i` replaced by `b`. -/
def putBit (byte i : Nat) (b : Bool) : Nat :=
  if b then byte ||| 2 ^ i else byte ^^^ (byte &&& 2 ^ i)

/-- A byte buffer with bit `pos` replaced by `b` (LSB first within each byte). -/
def putBitAt (bytes : List Nat) (pos : Nat) (b : Bool) : List Nat :=
  bytes.set (pos / 8) (putBit (bytes.getD (pos / 8) 0) (pos % 8) b)

/-- The byte whose bit `i` is `f i`, for `i < 8`. -/
def bitsToByte (f : Nat → Bool) : Nat :=
  (List.range 8).foldl (fun acc i => putBit acc i (f i)) 0

/-- Bits packed 8 per byte, LSB first, the last byte padded with zeros. -/
def packBits (bs : List Bool) : List Nat :=
  (List.range (readBytes bs.length)).map (fun j => bitsToByte (fun i => bs.getD (8 * j + i) false))

/-- Modelled from the spec: the loopback channel of section 8. TDO echoes TDI,
so the bytes returned hold the TDI values of the bits whose capture was asked
for, in queue order. -/
def loopback : Channel := fun _ queued _ =>
  some (packBits ((queued.filter (fun q => q.capture)).map (fun q => q.tdi)))

/-- The state at the start of a logical shift: zeroed counters, an empty
buffer, the caller's capture destination. -/
def xtsZero (out : Option (List Nat)) : xpc_ext_transfer_state_t :=
  { in_bits := 0, out_bits := 0, out_done := 0, out := out, buf := [] }

/-- Modelled from the spec: the body of `IOXPC::xpcu_add_bit_for_ext_transfer`
(declared in `src/ioxpc.h`) is missing. It appends one bit event to the buffer;
only a real bit with a capture destination is expected back, a padding bit is
queued and sent but its TDO value is not read. -/
def xpcu_add_bit_for_ext_transfer (xts : xpc_ext_transfer_state_t) (tdi tms is_real : Bool) :
    xpc_ext_transfer_state_t :=
  let capture := is_real && xts.out.isSome
  { xts with
    in_bits := xts.in_bits + 1
    out_bits := if capture then xts.out_bits + 1 else xts.out_bits
    buf := xts.buf ++ [⟨tdi, tms, capture⟩] }

/-- Bits `0 .. n-1` of `bytes` copied to bit offsets `off .. off+n-1` of `dst`. -/
def copyBits (bytes dst : List Nat) (off : Nat) : Nat → List Nat
  | 0 => dst
  | n + 1 => putBitAt (copyBits bytes dst off n) (off + n) (getBitAt bytes n)

/-- Modelled from the spec: the body of `IOXPC::xpcu_do_ext_transfer` (declared
in `src/ioxpc.h`) is missing. The flush issues the shift request with the
queued buffer, the bit count and the expected read length; on success it copies
the returned bits to the capture destination at the offsets that follow the
bits already written, and zeroes the counters; a failed or short transfer is an
error (`none`). -/
def xpcu_do_ext_transfer (xpcu_shift : Channel) (xts : xpc_ext_transfer_state_t) :
    Option xpc_ext_transfer_state_t :=
  match xpcu_shift xts.in_bits xts.buf (readBytes xts.out_bits) with
  | none => none
  | some bytes =>
    if bytes.length < readBytes xts.out_bits then none
    else
      some
        { in_bits := 0
          out_bits := 0
          out_done := xts.out_done + xts.out_bits
          out := xts.out.map (fun dst => copyBits bytes dst xts.out_done xts.out_bits)
          buf := [] }

/-- Modelled from the spec: the capacity check of the batching engine (section
4.2), whose code is missing. Appending one more bit would exceed the capacity
of the buffer: `2 * CPLD_MAX_BYTES` bits in the write direction,
`8 * CPLD_MAX_BYTES` in the read direction. -/
def wouldExceed (xts : xpc_ext_transfer_state_t) (is_real : Bool) : Bool :=
  decide (2 * CPLD_MAX_BYTES < xts.in_bits + 1) ||
    ((is_real && xts.out.isSome) && decide (8 * CPLD_MAX_BYTES < xts.out_bits + 1))

/-- Modelled from the spec: what the batching engine (section 4.2) does with
the ext-transfer state. -/
inductive EngineOp where
  /-- Queue a real bit, after a flush when appending it would exceed the capacity. -/
  | queue (tdi tms : Bool)
  /-- Queue one padding bit unless the queue is at a transfer-size boundary
  (a whole 2-byte group of 4 bits). -/
  | pad
  /-- Flush. -/
  | flush
deriving DecidableEq, Repr

/-- Modelled from the spec: one operation of the batching engine (section 4.2),
whose code is missing; `none` when a transfer fails. -/
def engineStep (xpcu_shift : Channel) (xts : xpc_ext_transfer_state_t) :
    EngineOp → Option xpc_ext_transfer_state_t
  | EngineOp.queue tdi tms =>
    if wouldExceed xts true then
      (xpcu_do_ext_transfer xpcu_shift xts).map
        (fun flushed => xpcu_add_bit_for_ext_transfer flushed tdi tms true)
    else some (xpcu_add_bit_for_ext_transfer xts tdi tms true)
  | EngineOp.pad =>
    if xts.in_bits % 4 = 0 then some xts
    else some (xpcu_add_bit_for_ext_transfer xts false false false)
  | EngineOp.flush => xpcu_do_ext_transfer xpcu_shift xts

/-- A sequence of engine operations, stopped by the first failed transfer. -/
def engineRun (xpcu_shift : Channel) (xts : xpc_ext_transfer_state_t) :
    List EngineOp → Option xpc_ext_transfer_state_t
  | [] => some xts
  | op :: rest =>
    match engineStep xpcu_shift xts op with
    | none => none
    | some next => engineRun xpcu_shift next rest

/-- Modelled from the spec: the end of a logical operation (sections 3 and 4.2),
padding to the transfer-size boundary (at most 3 bits), then the final flush. -/
def finalFlush : List EngineOp := [EngineOp.pad, EngineOp.pad, EngineOp.pad, EngineOp.flush]

/-- Modelled from the spec: the operations of a block shift of `n` bits
(section 4.1), bit `i` of `tdi` with TMS asserted on the last bit when `last` is
set, then the final flush. -/
def blockOps (tdi : List Nat) (n : Nat) (last : Bool) : List EngineOp :=
  (List.range n).map (fun i => EngineOp.queue (getBitAt tdi i) (last && decide (i + 1 = n)))
    ++ finalFlush

/-- Modelled from the spec: the body of `IOXPC::txrx_block` (the spec's
`shiftBlock`, declared in `src/ioxpc.h`) is missing. A request without bits is
a no-op; otherwise a fresh ext-transfer state is created on the zeroed
`ceil(length/8)` bytes of `tdo` (when `tdo` is not null, `capture`), the bits
of `tdi` are queued LSB first, and the state is flushed at the end. The result
is the state when the call ends, `out` being the caller's `tdo`. -/
def txrx_block (xpcu_shift : Channel) (tdi : List Nat) (capture : Bool) (length : Int)
    (last : Bool) : Option xpc_ext_transfer_state_t :=
  if length ≤ 0 then some (xtsZero (if capture then some [] else none))
  else
    engineRun xpcu_shift
      (xtsZero (if capture then some (List.replicate (readBytes length.toNat) 0) else none))
      (blockOps tdi length.toNat last)

/-- Modelled from the spec: the operations of a TMS run of `n` bits (section
4.1), TDI held low, bit `i` of `pat` on TMS, then the final flush. -/
def tmsOps (pat : List Nat) (n : Nat) : List EngineOp :=
  (List.range n).map (fun i => EngineOp.queue false (getBitAt pat i)) ++ finalFlush

/-- Modelled from the spec: the body of `IOXPC::tx_tms` (the spec's `shiftTms`,
declared in `src/ioxpc.h`) is missing. A TMS-only sequence with nothing
captured, on an ext-transfer state of its own that is flushed when the run
ends, whether or not `force` asks for it. -/
def tx_tms (xpcu_shift : Channel) (pat : List Nat) (length : Int) (_force : Bool) :
    Option xpc_ext_transfer_state_t :=
  if length ≤ 0 then some (xtsZero none)
  else engineRun xpcu_shift (xtsZero none) (tmsOps pat length.toNat)

/-- The queued bit counts fit the buffer: at most `2 * CPLD_MAX_BYTES` bits to
write and `8 * CPLD_MAX_BYTES` bits to read, within `CPLD_MAX_BYTES` bytes
either way; no more bits are expected back than are queued, and the buffer
holds the queued bits. -/
def xpc_ext_transfer_state_t.fits (s : xpc_ext_transfer_state_t) : Prop :=
  s.in_bits ≤ 2 * CPLD_MAX_BYTES ∧ s.out_bits ≤ 8 * CPLD_MAX_BYTES ∧
    writeBytes s.in_bits ≤ CPLD_MAX_BYTES ∧ readBytes s.out_bits ≤ CPLD_MAX_BYTES ∧
    s.out_bits ≤ s.in_bits ∧ s.buf.length = s.in_bits


/-- TDI values of the queued bits whose capture was asked for, in queue order. -/
def capturedTdi (s : xpc_ext_transfer_state_t) : List Bool :=
  (s.buf.filter (fun q => q.capture)).map (fun q => q.tdi)

/-- State of a capturing block shift of `n` bits of `tdi` over the loopback
channel once `i` bits are queued: the bits already flushed are in the
destination, the rest of it is zero, and the bits awaiting capture are the
next bits of `tdi`. -/
def BlockInv (tdi : List Nat) (n i : Nat) (s : xpc_ext_transfer_state_t) : Prop :=
  ∃ dst, s.out = some dst ∧ dst.length = readBytes n ∧ s.out_done + s.out_bits = i ∧ i ≤ n ∧
    (capturedTdi s).length = s.out_bits ∧
    (∀ t, t < s.out_bits → (capturedTdi s).getD t false = getBitAt tdi (s.out_done + t)) ∧
    (∀ q, getBitAt dst q = (decide (q < s.out_done) && getBitAt tdi q))

/-- The queueing part of `blockOps`, for the first `i` bits. -/
def queueOps (tdi : List Nat) (n : Nat) (last : Bool) (i : Nat) : List EngineOp :=
  (List.range i).map (fun i => EngineOp.queue (getBitAt tdi i) (last && decide (i + 1 = n)))

/-- A sample sequence of engine operations: three bits, the final flush, one more bit. -/
def sampleOps : List EngineOp :=
  [EngineOp.queue true false, EngineOp.queue false false, EngineOp.queue true true,
    EngineOp.pad, EngineOp.pad, EngineOp.pad, EngineOp.flush, EngineOp.queue true false]

/-- The state `sampleOps` reaches over the loopback channel from a zeroed state
with a one-byte capture destination. -/
def sampleState : xpc_ext_transfer_state_t :=
  { in_bits := 1, out_bits := 1, out_done := 3, out := some [5], buf := [⟨true, false, true⟩] }

/-- A sample session that ends with a cable connected: `sampleSession` up to
its selection, without the `close_cable`. -/
def openSession : List Invocation := sampleSession.take 6

end Xc3sprog

/-! ## Theorems -/

namespace Xc3sprog

/-! ### 32-bit integers and byte buffers -/

theorem bits32_lt (x : Int) : bits32 x < 2 ^ 32 := by
  unfold bits32
  have h1 : 0 ≤ x % 2 ^ 32 := Int.emod_nonneg _ (by norm_num)
  have h2 : x % 2 ^ 32 < 2 ^ 32 := Int.emod_lt_of_pos _ (by norm_num)
  omega

theorem testBit_bits32 (x : Int) (k : Nat) (hk : k < 32) :
    (bits32 x).testBit k = x.testBit k := by
  unfold bits32
  cases x with
  | ofNat n =>
    have h : (Int.ofNat n % 2 ^ 32).toNat = n % 2 ^ 32 := by
      have : (Int.ofNat n % 2 ^ 32) = ((n % 2 ^ 32 : Nat) : Int) := by
        simp [Int.ofNat_eq_coe]
      rw [this, Int.toNat_natCast]
    rw [h, Nat.testBit_mod_two_pow]
    simp [Int.testBit, hk]
  | negSucc n =>
    have h : (Int.negSucc n % 2 ^ 32).toNat = 2 ^ 32 - (n % 2 ^ 32 + 1) := by
      have hm : n % 2 ^ 32 < 2 ^ 32 := Nat.mod_lt _ (by norm_num)
      have : Int.negSucc n % 2 ^ 32 = ((2 ^ 32 - (n % 2 ^ 32 + 1) : Nat) : Int) := by
        rw [Int.negSucc_emod _ (by norm_num)]
        omega
      rw [this, Int.toNat_natCast]
    rw [h, Nat.testBit_two_pow_sub_succ (Nat.mod_lt _ (by norm_num)), Nat.testBit_mod_two_pow]
    simp [Int.testBit, hk]

theorem bits32_toInt32 (p : Nat) : bits32 (toInt32 p) = p % 2 ^ 32 := by
  unfold bits32 toInt32
  have hm : p % 2 ^ 32 < 2 ^ 32 := Nat.mod_lt _ (by norm_num)
  split <;> omega

theorem testBit_toInt32 (p k : Nat) (hk : k < 32) : (toInt32 p).testBit k = p.testBit k := by
  rw [← testBit_bits32 _ _ hk, bits32_toInt32, Nat.testBit_mod_two_pow]
  simp [hk]

theorem testBit_sar32 (x : Int) (s j : Nat) : (sar32 x s).testBit j = x.testBit (s + j) := by
  unfold sar32
  cases x with
  | ofNat n =>
    show Int.testBit (Int.ofNat (n >>> s)) j = _
    simp [Int.testBit, Nat.testBit_shiftRight]
  | negSucc n =>
    show Int.testBit (Int.negSucc (n >>> s)) j = _
    simp [Int.testBit, Nat.testBit_shiftRight]


theorem storeInt_testBit (v : Int) (i : Fin 4) (b : Nat) (hb : b < 8) :
    (storeInt v i).val.testBit b = v.testBit (8 * i.val + b) := by
  have h255 : (255 : Nat) = 2 ^ 8 - 1 := by norm_num
  have hb32 : b < 32 := by omega
  show (bits32 (band32 (sar32 v (8 * i.val)) 255) % 256).testBit b = _
  have h256 : (256 : Nat) = 2 ^ 8 := by norm_num
  have hc : bits32 255 = 255 := by decide
  rw [h256, Nat.testBit_mod_two_pow, band32, bits32_toInt32, Nat.testBit_mod_two_pow,
    Nat.testBit_and, testBit_bits32 _ _ hb32, testBit_sar32, hc, h255,
    Nat.testBit_two_pow_sub_one]
  simp [hb, hb32]

theorem bits32_byte (c : UChar) : bits32 (c.val : Int) = c.val := by
  unfold bits32
  have := c.isLt
  omega

theorem byte_testBit_high (c : UChar) (b : Nat) (hb : 8 ≤ b) : c.val.testBit b = false := by
  apply Nat.testBit_lt_two_pow
  calc c.val < 2 ^ 8 := c.isLt
    _ ≤ 2 ^ b := Nat.pow_le_pow_right (by norm_num) hb

theorem testBit_place (c : UChar) (i k : Nat) (hk : k < 32) :
    (shl32 (c.val : Int) (i * 8)).testBit k = (decide (k / 8 = i) && c.val.testBit (k % 8)) := by
  unfold shl32
  rw [testBit_toInt32 _ _ hk, bits32_byte, Nat.testBit_shiftLeft]
  by_cases h : k / 8 = i
  · have h1 : k ≥ i * 8 := by omega
    have h2 : k - i * 8 = k % 8 := by omega
    simp [h, h1, h2]
  · by_cases h1 : k ≥ i * 8
    · have h2 : 8 ≤ k - i * 8 := by omega
      simp [h, byte_testBit_high c _ h2]
    · simp [h, h1]

theorem testBit_bor32 (a b : Int) (k : Nat) (hk : k < 32) :
    (bor32 a b).testBit k = (a.testBit k || b.testBit k) := by
  unfold bor32
  rw [testBit_toInt32 _ _ hk, Nat.testBit_lor, testBit_bits32 _ _ hk, testBit_bits32 _ _ hk]

theorem collect_testBit (outbuf : Buf4) (i : Nat) (drval : Int) (k : Nat) (hk : k < 32) :
    (collect outbuf i drval).testBit k =
      (drval.testBit k || (decide (k / 8 ≤ i) && bufBit outbuf k)) := by
  have hk4 : k / 8 < 4 := by omega
  induction i generalizing drval with
  | zero =>
    unfold collect
    simp only [Nat.lt_add_one, Nat.ofNat_pos, dite_true]
    rw [testBit_bor32 _ _ _ hk, testBit_place _ _ _ hk]
    by_cases h : k / 8 = 0
    · simp [bufBit, h]
    · simp [h]
  | succ n ih =>
    unfold collect
    simp only
    rw [ih]
    by_cases h4 : n + 1 < 4
    · rw [dif_pos h4, testBit_bor32 _ _ _ hk, testBit_place _ _ _ hk]
      by_cases h : k / 8 = n + 1
      · have : ¬ k / 8 ≤ n := by omega
        simp [bufBit, h, this, h4]
      · by_cases h' : k / 8 ≤ n
        · have : k / 8 ≤ n + 1 := by omega
          simp [h, h', this]
        · have : ¬ k / 8 ≤ n + 1 := by omega
          simp [h, h', this]
    · rw [dif_neg h4]
      have h1 : k / 8 ≤ n := by omega
      have h2 : k / 8 ≤ n + 1 := by omega
      simp [h1, h2]

theorem readBack_testBit (outbuf : Buf4) (length : Int) (h1 : 1 ≤ length) (k : Nat)
    (hk : k < 32) :
    (readBack outbuf length).testBit k =
      (decide ((k : Int) / 8 ≤ (length - 1) / 8) && bufBit outbuf k) := by
  unfold readBack
  have hd : Int.tdiv (length - 1) 8 = (length - 1) / 8 :=
    Int.tdiv_eq_ediv (by omega) (by norm_num)
  simp only [hd]
  have h0 : 0 ≤ (length - 1) / 8 := by omega
  rw [if_pos h0, collect_testBit _ _ _ _ hk]
  have : (k / 8 ≤ ((length - 1) / 8).toNat) ↔ ((k : Int) / 8 ≤ (length - 1) / 8) := by omega
  have hz : (0 : Int).testBit k = false := by
    show Nat.testBit 0 k = false
    simp
  simp [this, hz]

/-! ### Buffer sizing and GPIO masks (`src/ioxpc.h`) -/

/-- C3: `CPLD_MAX_BYTES` is 4096; for every `n ≤ 8192` the `2*ceil(n/4)` bytes of
`n` write-direction bits and the `ceil(n/8)` bytes (at most 1024) of `n`
read-direction bits fit in `CPLD_MAX_BYTES`; 8192 write bits take exactly
`CPLD_MAX_BYTES` bytes, and a number of write bits fits exactly when it is at
most `2 * CPLD_MAX_BYTES = 8192`. -/
theorem buffer_sizing (n : Nat) (h : n ≤ 8192) :
    CPLD_MAX_BYTES = 4096 ∧
    writeBytes n ≤ CPLD_MAX_BYTES ∧
    readBytes n ≤ 1024 ∧ readBytes n ≤ CPLD_MAX_BYTES ∧
    writeBytes 8192 = CPLD_MAX_BYTES ∧
    2 * CPLD_MAX_BYTES = 8192 ∧
    (∀ m, writeBytes m ≤ CPLD_MAX_BYTES ↔ m ≤ 2 * CPLD_MAX_BYTES) := by
  have hc : CPLD_MAX_BYTES = 4096 := by decide
  rw [hc]
  unfold writeBytes readBytes
  exact ⟨rfl, by omega, by omega, by omega, by omega, by omega, fun m => by omega⟩

/-- C3 at 8191 bits: one bit short of the write capacity. -/
theorem buffer_sizing_witness :
    CPLD_MAX_BYTES = 4096 ∧
    writeBytes 8191 ≤ CPLD_MAX_BYTES ∧
    readBytes 8191 ≤ 1024 ∧ readBytes 8191 ≤ CPLD_MAX_BYTES ∧
    writeBytes 8192 = CPLD_MAX_BYTES ∧
    2 * CPLD_MAX_BYTES = 8192 ∧
    (∀ m, writeBytes m ≤ CPLD_MAX_BYTES ↔ m ≤ 2 * CPLD_MAX_BYTES) :=
  buffer_sizing 8191 (by decide)

/-- C9: the masks of PROG, TCK, TMS and TDI are the single bits 3, 2, 1 and 0,
pairwise disjoint, with union `0x0F`; the register value built by OR-ing the
masks of the asserted lines determines the four line states (the encoding is
injective) and each state is read back by AND-ing with the line's mask; the
TDO mask is bit 0 of the register that is read. -/
theorem gpio_encoding :
    (XPC_PROG = 2 ^ 3 ∧ XPC_TCK = 2 ^ 2 ∧ XPC_TMS = 2 ^ 1 ∧ XPC_TDI = 2 ^ 0) ∧
    (XPC_PROG &&& XPC_TCK = 0 ∧ XPC_PROG &&& XPC_TMS = 0 ∧ XPC_PROG &&& XPC_TDI = 0 ∧
      XPC_TCK &&& XPC_TMS = 0 ∧ XPC_TCK &&& XPC_TDI = 0 ∧ XPC_TMS &&& XPC_TDI = 0) ∧
    XPC_PROG ||| XPC_TCK ||| XPC_TMS ||| XPC_TDI = 0x0F ∧
    Function.Injective
      (fun q : Bool × Bool × Bool × Bool => gpioBits q.1 q.2.1 q.2.2.1 q.2.2.2) ∧
    (∀ prog tck tms tdi : Bool,
      lineOf XPC_PROG (gpioBits prog tck tms tdi) = prog ∧
      lineOf XPC_TCK (gpioBits prog tck tms tdi) = tck ∧
      lineOf XPC_TMS (gpioBits prog tck tms tdi) = tms ∧
      lineOf XPC_TDI (gpioBits prog tck tms tdi) = tdi ∧
      gpioBits prog tck tms tdi ≤ 0x0F) ∧
    (XPC_TDO = 2 ^ 0 ∧ ∀ r : Nat, lineOf XPC_TDO r = r.testBit 0) := by
  have hrec : ∀ prog tck tms tdi : Bool,
      lineOf XPC_PROG (gpioBits prog tck tms tdi) = prog ∧
      lineOf XPC_TCK (gpioBits prog tck tms tdi) = tck ∧
      lineOf XPC_TMS (gpioBits prog tck tms tdi) = tms ∧
      lineOf XPC_TDI (gpioBits prog tck tms tdi) = tdi ∧
      gpioBits prog tck tms tdi ≤ 0x0F := by decide
  refine ⟨by decide, by decide, by decide, ?_, hrec, by decide, ?_⟩
  · rintro ⟨p, c, m, d⟩ ⟨p', c', m', d'⟩ heq
    simp only at heq
    have h1 := hrec p c m d
    have h2 := hrec p' c' m' d'
    rw [heq] at h1
    have e1 : p = p' := h1.1.symm.trans h2.1
    have e2 : c = c' := h1.2.1.symm.trans h2.2.1
    have e3 : m = m' := h1.2.2.1.symm.trans h2.2.2.1
    have e4 : d = d' := h1.2.2.2.1.symm.trans h2.2.2.2.1
    rw [e1, e2, e3, e4]
  · intro r
    have h1 : XPC_TDO = 1 := by decide
    simp only [lineOf, h1, Nat.and_one_is_mod, Nat.testBit_zero]
    rcases Nat.mod_two_eq_zero_or_one r with h | h <;> simp [h]

/-! ### `shift_dr` (`src/tcljtag.cpp`) -/

theorem shift_dr_run (j : TclJTAG) (jt : Jtag) (name a1 a2 : Tcl_Obj) (e : Env)
    (v length : Int) (hc : j.connected = true) (hj : j.jtag = some jt)
    (hv : a1.intRep = some v) (hl : a2.intRep = some length) :
    shift_dr (some j) [name, a1, a2] e =
      some ⟨TCL_OK,
        some { j with drbuf := storeInt v, outbuf := e.shiftDR (storeInt v) j.outbuf length },
        some (TclValue.int (readBack (e.shiftDR (storeInt v) j.outbuf length) length)),
        [JtagCall.shiftDR length]⟩ := by
  simp [shift_dr, GetJTAG, hc, Tcl_GetIntFromObj, hv, hl, hj]

theorem bufBit_storeInt (v : Int) (k : Nat) (hk : k < 32) :
    bufBit (storeInt v) k = v.testBit k := by
  have h4 : k / 8 < 4 := by omega
  unfold bufBit
  rw [dif_pos h4, storeInt_testBit v ⟨k / 8, h4⟩ (k % 8) (Nat.mod_lt _ (by norm_num))]
  congr 1
  show 8 * (k / 8) + k % 8 = k
  omega

/-- C4: `shift_dr value length` with `1 ≤ length ≤ 32` on a connected cable
succeeds, stores `value` LSB-first in `drbuf` (bit `k` of the value is bit
`k mod 8` of `drbuf[k div 8]`, for every `k < 32`), and when the chain's
`shiftDR` leaves in `outbuf` the bytes that were sent, bit `k` of the integer
returned to Tcl is bit `k` of `value` for every `k < length`. -/
theorem shift_dr_bit_positions (j : TclJTAG) (jt : Jtag) (name a1 a2 : Tcl_Obj) (e : Env)
    (v length : Int) (hc : j.connected = true) (hj : j.jtag = some jt)
    (hv : a1.intRep = some v) (hl : a2.intRep = some length)
    (hlo : 1 ≤ length) (hhi : length ≤ 32) :
    ∃ j1 x, shift_dr (some j) [name, a1, a2] e =
        some ⟨TCL_OK, some j1, some (TclValue.int x), [JtagCall.shiftDR length]⟩ ∧
      j1.outbuf = e.shiftDR j1.drbuf j.outbuf length ∧
      (∀ k : Nat, k < 32 → bufBit j1.drbuf k = v.testBit k) ∧
      (j1.outbuf = j1.drbuf → ∀ k : Nat, (k : Int) < length → x.testBit k = v.testBit k) := by
  refine ⟨_, _, shift_dr_run j jt name a1 a2 e v length hc hj hv hl, rfl,
    fun k hk => bufBit_storeInt v k hk, ?_⟩
  intro hloop k hk
  have hk32 : k < 32 := by omega
  have hloop1 : e.shiftDR (storeInt v) j.outbuf length = storeInt v := hloop
  rw [hloop1, readBack_testBit _ _ hlo _ hk32, bufBit_storeInt v k hk32]
  have : (k : Int) / 8 ≤ (length - 1) / 8 := by omega
  simp [this]

/-- C4 at `value = -559038737` (the `int` with pattern `0xDEADBEEF`), `length = 32`, loopback. -/
theorem shift_dr_bit_positions_witness :
    ∃ j1 x, shift_dr (some (openedObj 1))
          [wordObj "shift_dr", intObj (-559038737), intObj 32] (loopEnv 1) =
        some ⟨TCL_OK, some j1, some (TclValue.int x), [JtagCall.shiftDR 32]⟩ ∧
      j1.outbuf = (loopEnv 1).shiftDR j1.drbuf (openedObj 1).outbuf 32 ∧
      (∀ k : Nat, k < 32 → bufBit j1.drbuf k = (-559038737 : Int).testBit k) ∧
      (j1.outbuf = j1.drbuf →
        ∀ k : Nat, (k : Int) < 32 → x.testBit k = (-559038737 : Int).testBit k) :=
  shift_dr_bit_positions (openedObj 1) ⟨some ⟨1⟩, false, 1⟩ (wordObj "shift_dr")
    (intObj (-559038737)) (intObj 32) (loopEnv 1) (-559038737) 32 rfl rfl rfl rfl
    (by decide) (by decide)

/-- C5 as stated fails: `shift_dr 0 3` on a chain whose capture buffer holds
`0xFF` returns 255, whose bit 3 (a position `≥ length = 3`) is set. -/
theorem shift_dr_partial_byte_unmasked :
    (shift_dr (some (openedObj 1)) [wordObj "shift_dr", intObj 0, intObj 3] stuckHighEnv).bind
        (fun r => r.result) = some (TclValue.int 255) ∧
      (255 : Int).testBit 3 = true ∧ (3 : Int) % 8 ≠ 0 := by
  refine ⟨?_, by decide, by decide⟩
  rw [shift_dr_run (openedObj 1) ⟨some ⟨1⟩, false, 1⟩ _ _ _ _ 0 3 rfl rfl rfl rfl]
  exact congrArg (fun x => some (TclValue.int x))
    (by decide : readBack (stuckHighEnv.shiftDR (storeInt 0) (openedObj 1).outbuf 3) 3 = 255)

/-- C5, amended: `shift_dr value length` with `1 ≤ length` returns the
captured bytes `outbuf[0 .. (length-1)/8]` whole: for every position `k < 32`,
bit `k` of the result is bit `k mod 8` of `outbuf[k div 8]` when
`k < 8 * ((length-1)/8 + 1)` and is clear otherwise. -/
theorem shift_dr_whole_bytes (j : TclJTAG) (jt : Jtag) (name a1 a2 : Tcl_Obj) (e : Env)
    (v length : Int) (hc : j.connected = true) (hj : j.jtag = some jt)
    (hv : a1.intRep = some v) (hl : a2.intRep = some length) (hlo : 1 ≤ length) :
    ∃ j1 x, shift_dr (some j) [name, a1, a2] e =
        some ⟨TCL_OK, some j1, some (TclValue.int x), [JtagCall.shiftDR length]⟩ ∧
      j1.outbuf = e.shiftDR (storeInt v) j.outbuf length ∧
      ∀ k : Nat, k < 32 →
        x.testBit k = (decide ((k : Int) < 8 * ((length - 1) / 8 + 1)) && bufBit j1.outbuf k) := by
  refine ⟨_, _, shift_dr_run j jt name a1 a2 e v length hc hj hv hl, rfl, ?_⟩
  intro k hk
  rw [readBack_testBit _ _ hlo _ hk]
  have : ((k : Int) / 8 ≤ (length - 1) / 8) ↔ ((k : Int) < 8 * ((length - 1) / 8 + 1)) := by omega
  simp [this]

/-- C5 amended, at `shift_dr 0 3` on the chain whose capture buffer holds `0xFF`. -/
theorem shift_dr_whole_bytes_witness :
    ∃ j1 x, shift_dr (some (openedObj 1)) [wordObj "shift_dr", intObj 0, intObj 3]
          stuckHighEnv =
        some ⟨TCL_OK, some j1, some (TclValue.int x), [JtagCall.shiftDR 3]⟩ ∧
      j1.outbuf = stuckHighEnv.shiftDR (storeInt 0) (openedObj 1).outbuf 3 ∧
      ∀ k : Nat, k < 32 →
        x.testBit k = (decide ((k : Int) < 8 * (((3 : Int) - 1) / 8 + 1)) && bufBit j1.outbuf k) :=
  shift_dr_whole_bytes (openedObj 1) ⟨some ⟨1⟩, false, 1⟩ (wordObj "shift_dr")
    (intObj 0) (intObj 3) stuckHighEnv 0 3 rfl rfl rfl rfl (by decide)

/-! ### `open_cable` and `close_cable` -/

/-- The object `openedObj chain` is what a successful `open_cable` leaves. -/
theorem openedObj_reached :
    opencable (some freshObj) [wordObj "open_cable", wordObj "xpc"] (loopEnv 2) =
      ⟨TCL_OK, some (openedObj 2), some (TclValue.str "1"),
        [JtagCall.setVerbose, JtagCall.detect_chain, JtagCall.getChain]⟩ :=
  rfl

/-- Failures of `opencable` before `getIO` is reached (wrong argument count,
unknown cable) leave the object disconnected and without handles. -/
theorem opencable_early_errors_release (j : TclJTAG) (objv : List Tcl_Obj) (e : Env)
    (h : objv.length ≠ 2 ∨ ∀ name, e.getCable name ≠ 0) :
    ∃ j1, opencable (some j) objv e = ⟨TCL_ERROR, some j1, none, []⟩ ∧
      j1.connected = false ∧ j1.holdsNone = true := by
  unfold opencable
  match objv, h with
  | [], _ => exact ⟨_, rfl, rfl, rfl⟩
  | [_], _ => exact ⟨_, rfl, rfl, rfl⟩
  | [_, name], h =>
    have hk : e.getCable name.str ≠ 0 := by
      rcases h with h | h
      · exact absurd rfl h
      · exact h _
    simp only [hk, ne_eq, not_false_eq_true, if_true]
    exact ⟨_, rfl, rfl, rfl⟩
  | _ :: _ :: _ :: _, _ => exact ⟨_, rfl, rfl, rfl⟩

/-- Whenever `opencable` does not return `TCL_OK`, `connected` is false afterwards. -/
theorem opencable_error_disconnected (j : TclJTAG) (objv : List Tcl_Obj) (e : Env) :
    (opencable (some j) objv e).code = TCL_OK ∨
      ∃ j1, (opencable (some j) objv e).obj = some j1 ∧ j1.connected = false := by
  unfold opencable
  match objv with
  | [] => exact Or.inr ⟨_, rfl, rfl⟩
  | [_] => exact Or.inr ⟨_, rfl, rfl⟩
  | [_, name] =>
    simp only
    split
    · exact Or.inr ⟨_, rfl, rfl⟩
    · split
      · exact Or.inr ⟨_, rfl, rfl⟩
      · split
        · exact Or.inr ⟨_, rfl, rfl⟩
        · exact Or.inl rfl
  | _ :: _ :: _ :: _ => exact Or.inr ⟨_, rfl, rfl⟩

/-- C6, the code at the failing input: `open_cable xpc` on a fresh object, the
cable known, `getIO` storing handle 1 and returning 0, the detected chain
empty. The command returns `TCL_ERROR` with `connected` false, and the object
still holds the I/O object and the `Jtag` built on it. -/
theorem opencable_empty_chain_keeps_handles :
    ∃ j1, opencable (some freshObj) [wordObj "open_cable", wordObj "xpc"] (loopEnv 0) =
        ⟨TCL_ERROR, some j1, none,
          [JtagCall.setVerbose, JtagCall.detect_chain, JtagCall.getChain]⟩ ∧
      j1.connected = false ∧ j1.io = some ⟨1⟩ ∧ j1.jtag = some ⟨some ⟨1⟩, false, 0⟩ ∧
      j1.holdsNone = false :=
  ⟨_, rfl, rfl, rfl, rfl, rfl⟩

/-- C7: `close_cable` run twice leaves the object that one run leaves; run
when no cable is connected it returns `TCL_ERROR`, changes no member and makes
no call through the handles; no cable is connected after a `close_cable` and
after an `open_cable` that did not return `TCL_OK`, so a `close_cable` that
follows either changes nothing. -/
theorem closecable_idempotent (j : TclJTAG) :
    (closecable (closecable (some j)).obj).obj = (closecable (some j)).obj ∧
    (j.connected = false → closecable (some j) = ⟨TCL_ERROR, some j, none, []⟩) ∧
    (∃ j1, (closecable (some j)).obj = some j1 ∧ j1.connected = false ∧
      closecable (some j1) = ⟨TCL_ERROR, some j1, none, []⟩) ∧
    (∀ objv e, (opencable (some j) objv e).code ≠ TCL_OK →
      ∃ j1, (opencable (some j) objv e).obj = some j1 ∧
        closecable (some j1) = ⟨TCL_ERROR, some j1, none, []⟩) := by
  have hoff : ∀ j' : TclJTAG, j'.connected = false →
      closecable (some j') = ⟨TCL_ERROR, some j', none, []⟩ := by
    intro j' h
    simp [closecable, h]
  have hafter : ∃ j1, (closecable (some j)).obj = some j1 ∧ j1.connected = false := by
    by_cases h : j.connected = true
    · refine ⟨{ j with jtag := none, io := none, connected := false }, ?_, rfl⟩
      simp [closecable, h]
    · have h' : j.connected = false := by simpa using h
      exact ⟨j, by simp [closecable, h'], h'⟩
  obtain ⟨j1, h1, h2⟩ := hafter
  refine ⟨?_, hoff j, ⟨j1, h1, h2, hoff j1 h2⟩, ?_⟩
  · rw [h1, hoff j1 h2]
  · intro objv e hne
    rcases opencable_error_disconnected j objv e with h | ⟨j2, h3, h4⟩
    · exact absurd h hne
    · exact ⟨j2, h3, hoff j2 h4⟩

/-! ### `select_device` -/

theorem positionArg_default (objv : List Tcl_Obj) (h : objv.length < 2) :
    positionArg objv = (TCL_OK, 0) := by
  match objv, h with
  | [], _ => rfl
  | [_], _ => rfl

/-- The result of `selectdevice` on a connected cable in terms of what its first
lines (`positionArg`) made of the arguments. -/
theorem selectdevice_by_positionArg (j : TclJTAG) (jt : Jtag) (objv : List Tcl_Obj) (e : Env)
    (hc : j.connected = true) (hj : j.jtag = some jt) :
    ∃ r, selectdevice (some j) objv e = some r ∧ r.obj = some j ∧
      (r.code = TCL_OK ↔
        (positionArg objv).1 = TCL_OK ∧ 0 ≤ (positionArg objv).2 ∧
          (positionArg objv).2 < jt.numDevices ∧ 0 ≤ e.selectDevice (positionArg objv).2) ∧
      (r.code = TCL_OK → JtagCall.selectDevice (positionArg objv).2 ∈ r.calls) ∧
      ((positionArg objv).2 < 0 ∨ jt.numDevices ≤ (positionArg objv).2 →
        r.code = TCL_ERROR ∧ ∀ p, JtagCall.selectDevice p ∉ r.calls) ∧
      (objv.length < 2 → positionArg objv = (TCL_OK, 0)) := by
  have hcode : ∀ res : Int, (positionArg objv).1 = res → res = TCL_OK ∨ res = TCL_ERROR := by
    intro res hres
    rw [← hres]
    unfold positionArg
    split
    · unfold Tcl_GetIntFromObj
      split
      · exact Or.inl rfl
      · exact Or.inr rfl
    · exact Or.inl rfl
  have herrne : TCL_ERROR ≠ TCL_OK := by decide
  unfold selectdevice
  simp only [GetJTAG, hc, hj, Bool.not_true, Bool.false_eq_true, if_false]
  rcases hp : positionArg objv with ⟨res, pos⟩
  simp only [hp] at hcode
  simp only
  have hlast : objv.length < 2 → (res, pos) = (TCL_OK, 0) := by
    intro hl
    rw [← hp]
    exact positionArg_default objv hl
  by_cases hres : res = TCL_OK
  · subst hres
    simp only [ne_eq, not_true_eq_false, if_false]
    by_cases hrange : pos < 0 ∨ pos ≥ jt.numDevices
    · rw [if_pos hrange]
      refine ⟨_, rfl, rfl, ?_, ?_, ?_, hlast⟩
      · simp only [TCL_ERROR, TCL_OK]
        constructor
        · intro h; exact absurd h (by decide)
        · intro h; omega
      · intro h; exact absurd h herrne
      · intro _; exact ⟨rfl, by simp⟩
    · rw [if_neg hrange]
      by_cases hsel : e.selectDevice pos < 0
      · rw [if_pos hsel]
        refine ⟨_, rfl, rfl, ?_, ?_, ?_, hlast⟩
        · simp only [TCL_ERROR, TCL_OK]
          constructor
          · intro h; exact absurd h (by decide)
          · intro h; omega
        · intro h; exact absurd h herrne
        · intro h; exact absurd h (by omega)
      · rw [if_neg hsel]
        refine ⟨_, rfl, rfl, ?_, ?_, ?_, hlast⟩
        · simp only [true_and, true_iff]
          omega
        · intro _; simp
        · intro h; exact absurd h (by omega)
  · rw [if_pos hres]
    have herr : res = TCL_ERROR := (hcode res rfl).resolve_left hres
    refine ⟨_, rfl, rfl, ?_, ?_, ?_, hlast⟩
    · constructor
      · intro h; exact absurd h hres
      · intro h; exact absurd h.1 hres
    · intro h; exact absurd h hres
    · intro _; exact ⟨herr, by simp⟩

theorem positionArg_int (cmd a1 : Tcl_Obj) (rest : List Tcl_Obj) (v : Int)
    (hv : a1.intRep = some v) : positionArg (cmd :: a1 :: rest) = (TCL_OK, v) := by
  simp [positionArg, Tcl_GetIntFromObj, hv]

theorem positionArg_word (cmd a1 : Tcl_Obj) (rest : List Tcl_Obj)
    (hv : a1.intRep = none) : positionArg (cmd :: a1 :: rest) = (TCL_ERROR, 0) := by
  simp [positionArg, Tcl_GetIntFromObj, hv]

/-- The result of `selectdevice` on a connected cable when the position used is `v`. -/
theorem selectdevice_at (j : TclJTAG) (jt : Jtag) (objv : List Tcl_Obj) (e : Env) (v : Int)
    (hc : j.connected = true) (hj : j.jtag = some jt) (hp : positionArg objv = (TCL_OK, v)) :
    ∃ r, selectdevice (some j) objv e = some r ∧ r.obj = some j ∧
      (r.code = TCL_OK ↔ 0 ≤ v ∧ v < jt.numDevices ∧ 0 ≤ e.selectDevice v) ∧
      (r.code = TCL_OK ∨ r.code = TCL_ERROR) ∧
      (r.code = TCL_OK → r.calls = [JtagCall.getChain, JtagCall.selectDevice v]) ∧
      (v < 0 ∨ jt.numDevices ≤ v → r.code = TCL_ERROR ∧ r.calls = [JtagCall.getChain]) := by
  have herrne : TCL_ERROR ≠ TCL_OK := by decide
  unfold selectdevice
  simp only [GetJTAG, hc, hj, hp, Bool.not_true, Bool.false_eq_true, if_false, ne_eq,
    not_true_eq_false]
  by_cases hrange : v < 0 ∨ v ≥ jt.numDevices
  · rw [if_pos hrange]
    refine ⟨_, rfl, rfl, ⟨fun h => absurd h herrne, fun h => ?_⟩, Or.inr rfl,
      fun h => absurd h herrne, fun _ => ⟨rfl, rfl⟩⟩
    omega
  · rw [if_neg hrange]
    by_cases hsel : e.selectDevice v < 0
    · rw [if_pos hsel]
      refine ⟨_, rfl, rfl, ⟨fun h => absurd h herrne, fun h => ?_⟩, Or.inr rfl,
        fun h => absurd h herrne, fun h => ?_⟩
      · omega
      · omega
    · rw [if_neg hsel]
      refine ⟨_, rfl, rfl, ⟨fun _ => ?_, fun _ => rfl⟩, Or.inl rfl, fun _ => rfl, fun h => ?_⟩
      · omega
      · omega

/-- C8: on a connected cable whose chain has `num` devices (`jt.numDevices`),
`select_device` returns and leaves the object as it was. When its argument
`objv[1]` holds the integer `v`, it returns `TCL_OK` exactly when
`0 ≤ v < num` and `selectDevice(v)` does not return a negative value, having
called `getChain` and `selectDevice(v)`, and returns `TCL_ERROR` otherwise; for
`v < 0` or `v ≥ num` it returns `TCL_ERROR` having called `getChain` only, not
`selectDevice`. When `objv[1]` holds no integer it returns `TCL_ERROR` and
calls nothing. Without a position argument it does what it does for `v = 0`. -/
theorem selectdevice_validates (j : TclJTAG) (jt : Jtag) (objv : List Tcl_Obj) (e : Env)
    (hc : j.connected = true) (hj : j.jtag = some jt) :
    ∃ r, selectdevice (some j) objv e = some r ∧ r.obj = some j ∧
      (∀ (cmd a1 : Tcl_Obj) (rest : List Tcl_Obj) (v : Int),
        objv = cmd :: a1 :: rest → a1.intRep = some v →
          (r.code = TCL_OK ↔ 0 ≤ v ∧ v < jt.numDevices ∧ 0 ≤ e.selectDevice v) ∧
          (r.code = TCL_OK ∨ r.code = TCL_ERROR) ∧
          (r.code = TCL_OK → r.calls = [JtagCall.getChain, JtagCall.selectDevice v]) ∧
          (v < 0 ∨ jt.numDevices ≤ v →
            r.code = TCL_ERROR ∧ r.calls = [JtagCall.getChain] ∧
              ∀ p, JtagCall.selectDevice p ∉ r.calls)) ∧
      (∀ (cmd a1 : Tcl_Obj) (rest : List Tcl_Obj),
        objv = cmd :: a1 :: rest → a1.intRep = none → r.code = TCL_ERROR ∧ r.calls = []) ∧
      (objv.length < 2 →
        (r.code = TCL_OK ↔ 0 < jt.numDevices ∧ 0 ≤ e.selectDevice 0) ∧
        (r.code = TCL_OK ∨ r.code = TCL_ERROR) ∧
        (r.code = TCL_OK → r.calls = [JtagCall.getChain, JtagCall.selectDevice 0]) ∧
        (jt.numDevices ≤ 0 →
          r.code = TCL_ERROR ∧ r.calls = [JtagCall.getChain] ∧
            ∀ p, JtagCall.selectDevice p ∉ r.calls)) := by
  match objv with
  | [] =>
    obtain ⟨r, h1, h2, h3, h4, h5, h6⟩ := selectdevice_at j jt [] e 0 hc hj rfl
    refine ⟨r, h1, h2, fun _ _ _ _ h => absurd h (by simp), fun _ _ _ h => absurd h (by simp),
      fun _ => ⟨?_, h4, h5, fun hn => ?_⟩⟩
    · rw [h3]
      constructor
      · intro h; exact ⟨h.2.1, h.2.2⟩
      · intro h; exact ⟨le_refl _, h.1, h.2⟩
    · obtain ⟨h7, h8⟩ := h6 (Or.inr hn)
      exact ⟨h7, h8, by simp [h8]⟩
  | [c0] =>
    obtain ⟨r, h1, h2, h3, h4, h5, h6⟩ := selectdevice_at j jt [c0] e 0 hc hj rfl
    refine ⟨r, h1, h2, fun _ _ _ _ h => absurd h (by simp), fun _ _ _ h => absurd h (by simp),
      fun _ => ⟨?_, h4, h5, fun hn => ?_⟩⟩
    · rw [h3]
      constructor
      · intro h; exact ⟨h.2.1, h.2.2⟩
      · intro h; exact ⟨le_refl _, h.1, h.2⟩
    · obtain ⟨h7, h8⟩ := h6 (Or.inr hn)
      exact ⟨h7, h8, by simp [h8]⟩
  | c0 :: b1 :: more =>
    cases hb : b1.intRep with
    | some w =>
      obtain ⟨r, h1, h2, h3, h4, h5, h6⟩ :=
        selectdevice_at j jt (c0 :: b1 :: more) e w hc hj (positionArg_int c0 b1 more w hb)
      refine ⟨r, h1, h2, ?_, ?_, fun hl => absurd hl (by simp)⟩
      · intro cmd a1 rest v hobj hv
        have ha : b1 = a1 := (List.cons.inj (List.cons.inj hobj).2).1
        subst ha
        have hvw : w = v := Option.some.inj (hb.symm.trans hv)
        subst hvw
        refine ⟨h3, h4, h5, fun hn => ?_⟩
        obtain ⟨h7, h8⟩ := h6 hn
        exact ⟨h7, h8, by simp [h8]⟩
      · intro cmd a1 rest hobj hv
        have ha : b1 = a1 := (List.cons.inj (List.cons.inj hobj).2).1
        subst ha
        rw [hb] at hv
        exact absurd hv (by simp)
    | none =>
      have hrun : selectdevice (some j) (c0 :: b1 :: more) e =
          some ⟨TCL_ERROR, some j, none, []⟩ := by
        unfold selectdevice
        simp [GetJTAG, hc, positionArg_word c0 b1 more hb, TCL_ERROR, TCL_OK]
      refine ⟨_, hrun, rfl, ?_, fun _ _ _ _ _ => ⟨rfl, rfl⟩, fun hl => absurd hl (by simp)⟩
      intro cmd a1 rest v hobj hv
      have ha : b1 = a1 := (List.cons.inj (List.cons.inj hobj).2).1
      subst ha
      rw [hb] at hv
      exact absurd hv (by simp)

/-- What `select_device` returns, and the calls it makes, on a connected chain
of 2 devices for the arguments 5, -3, 1, a word that is no integer, and none. -/
theorem selectdevice_examples :
    (selectdevice (some (openedObj 2)) [wordObj "select_device", intObj 5] (loopEnv 2)).map
        (fun r => (r.code, r.calls)) = some (TCL_ERROR, [JtagCall.getChain]) ∧
    (selectdevice (some (openedObj 2)) [wordObj "select_device", intObj (-3)] (loopEnv 2)).map
        (fun r => (r.code, r.calls)) = some (TCL_ERROR, [JtagCall.getChain]) ∧
    (selectdevice (some (openedObj 2)) [wordObj "select_device", intObj 1] (loopEnv 2)).map
        (fun r => (r.code, r.calls)) =
      some (TCL_OK, [JtagCall.getChain, JtagCall.selectDevice 1]) ∧
    (selectdevice (some (openedObj 2)) [wordObj "select_device", wordObj "abc"] (loopEnv 2)).map
        (fun r => (r.code, r.calls)) = some (TCL_ERROR, []) ∧
    (selectdevice (some (openedObj 2)) [wordObj "select_device"] (loopEnv 2)).map
        (fun r => (r.code, r.calls)) =
      some (TCL_OK, [JtagCall.getChain, JtagCall.selectDevice 0]) :=
  ⟨rfl, rfl, rfl, rfl, rfl⟩

/-- C8 at `select_device 5` on a connected chain of 2 devices: the command
returns `TCL_ERROR` after `getChain` alone. -/
theorem selectdevice_validates_witness :
    ∃ r, selectdevice (some (openedObj 2)) [wordObj "select_device", intObj 5] (loopEnv 2) =
        some r ∧ r.obj = some (openedObj 2) ∧ r.code = TCL_ERROR ∧
      r.calls = [JtagCall.getChain] ∧ ∀ p, JtagCall.selectDevice p ∉ r.calls :=
  let ⟨r, h1, h2, h3, _, _⟩ :=
    selectdevice_validates (openedObj 2) ⟨some ⟨1⟩, false, 2⟩
      [wordObj "select_device", intObj 5] (loopEnv 2) rfl rfl
  let h := (h3 (wordObj "select_device") (intObj 5) [] 5 rfl rfl).2.2.2 (Or.inr (by decide))
  ⟨r, h1, h2, h.1, h.2.1, h.2.2⟩

/-! ### Sessions -/


/-- The sample session runs to its end and leaves no cable connected. -/
theorem sampleSession_runs :
    (runSession (TclJTAG.init zeroBuf zeroBuf zeroBuf) sampleSession).map
      (fun j => (j.connected, j.jtag, j.io)) = some (false, none, none) :=
  rfl

/-- The sample session cut before its `close_cable` leaves the cable connected. -/
theorem openSession_runs :
    (runSession (TclJTAG.init zeroBuf zeroBuf zeroBuf) openSession).map
      (fun j => (j.connected, j.jtag, j.io)) =
      some (true, some ⟨some ⟨1⟩, false, 1⟩, some ⟨1⟩) :=
  rfl

theorem fits_iff (s : xpc_ext_transfer_state_t) :
    s.fits ↔ s.in_bits ≤ 8192 ∧ s.out_bits ≤ s.in_bits ∧ s.buf.length = s.in_bits := by
  have hc : CPLD_MAX_BYTES = 4096 := by decide
  unfold xpc_ext_transfer_state_t.fits writeBytes readBytes
  rw [hc]
  constructor
  · rintro ⟨h1, _, _, _, h5, h6⟩
    exact ⟨by omega, h5, h6⟩
  · rintro ⟨h1, h2, h3⟩
    exact ⟨by omega, by omega, by omega, by omega, h2, h3⟩

theorem flush_counters (chan : Channel) (s t : xpc_ext_transfer_state_t)
    (h : xpcu_do_ext_transfer chan s = some t) :
    t.in_bits = 0 ∧ t.out_bits = 0 ∧ t.buf = [] ∧ t.out_done = s.out_done + s.out_bits ∧
      t.out.isSome = s.out.isSome := by
  unfold xpcu_do_ext_transfer at h
  split at h
  · exact absurd h (by simp)
  · split at h
    · exact absurd h (by simp)
    · simp only [Option.some.injEq] at h
      subst h
      exact ⟨rfl, rfl, rfl, rfl, by simp⟩

theorem add_bit_counters (s : xpc_ext_transfer_state_t) (tdi tms is_real : Bool) :
    (xpcu_add_bit_for_ext_transfer s tdi tms is_real).in_bits = s.in_bits + 1 ∧
    (xpcu_add_bit_for_ext_transfer s tdi tms is_real).out_bits ≤ s.out_bits + 1 ∧
    s.out_bits ≤ (xpcu_add_bit_for_ext_transfer s tdi tms is_real).out_bits ∧
    (xpcu_add_bit_for_ext_transfer s tdi tms is_real).buf.length = s.buf.length + 1 := by
  unfold xpcu_add_bit_for_ext_transfer
  simp only [List.length_append, List.length_singleton]
  refine ⟨trivial, ?_, ?_, trivial⟩ <;> split <;> omega

theorem engineStep_fits (chan : Channel) (s t : xpc_ext_transfer_state_t) (op : EngineOp)
    (hs : s.fits) (h : engineStep chan s op = some t) : t.fits := by
  have hc : CPLD_MAX_BYTES = 4096 := by decide
  rw [fits_iff] at hs ⊢
  obtain ⟨h1, h2, h3⟩ := hs
  cases op with
  | queue tdi tms =>
    simp only [engineStep] at h
    split at h
    · cases hf : xpcu_do_ext_transfer chan s with
      | none => simp [hf] at h
      | some f =>
        simp only [hf, Option.map_some', Option.some.injEq] at h
        subst h
        obtain ⟨f1, f2, f3, _, _⟩ := flush_counters chan s f hf
        have := add_bit_counters f tdi tms true
        simp only [f3, List.length_nil] at this
        omega
    · rename_i hw
      simp only [Option.some.injEq] at h
      subst h
      have := add_bit_counters s tdi tms true
      simp only [wouldExceed, hc, Bool.or_eq_true, decide_eq_true_eq, not_or, not_lt] at hw
      omega
  | pad =>
    simp only [engineStep] at h
    split at h
    · simp only [Option.some.injEq] at h
      subst h
      exact ⟨h1, h2, h3⟩
    · simp only [Option.some.injEq] at h
      subst h
      have := add_bit_counters s false false false
      omega
  | flush =>
    simp only [engineStep] at h
    obtain ⟨f1, f2, f3, _, _⟩ := flush_counters chan s t h
    simp [f1, f2, f3]

theorem engineRun_fits (chan : Channel) (ops : List EngineOp) (s t : xpc_ext_transfer_state_t)
    (hs : s.fits) (h : engineRun chan s ops = some t) : t.fits := by
  induction ops generalizing s with
  | nil =>
    simp only [engineRun, Option.some.injEq] at h
    exact h ▸ hs
  | cons op rest ih =>
    simp only [engineRun] at h
    cases hstep : engineStep chan s op with
    | none => simp [hstep] at h
    | some next =>
      simp only [hstep] at h
      exact ih next (engineStep_fits chan s next op hs hstep) h

theorem xtsZero_fits (out : Option (List Nat)) : (xtsZero out).fits := by
  rw [fits_iff]
  exact ⟨by simp [xtsZero], by simp [xtsZero], rfl⟩

/-- C2: every state the engine reaches from a zeroed ext-transfer state, by any
sequence of its operations (queue a bit after the flush the capacity check asks
for, pad, flush) and over any channel, has `in_bits ≤ 2 * CPLD_MAX_BYTES` and
`out_bits ≤ 8 * CPLD_MAX_BYTES`, the byte sizes of both within `CPLD_MAX_BYTES`;
`txrx_block` and `tx_tms` run such sequences (`blockOps`, `tmsOps`), so this
holds of the state after each of their steps. -/
theorem ext_transfer_capacity (xpcu_shift : Channel) (out : Option (List Nat))
    (ops : List EngineOp) (s : xpc_ext_transfer_state_t)
    (h : engineRun xpcu_shift (xtsZero out) ops = some s) :
    s.in_bits ≤ 2 * CPLD_MAX_BYTES ∧ s.out_bits ≤ 8 * CPLD_MAX_BYTES ∧
      writeBytes s.in_bits ≤ CPLD_MAX_BYTES ∧ readBytes s.out_bits ≤ CPLD_MAX_BYTES ∧
      s.out_bits ≤ s.in_bits ∧ s.buf.length = s.in_bits :=
  engineRun_fits xpcu_shift ops (xtsZero out) s (xtsZero_fits out) h

/-- C2 on `sampleOps` over the loopback channel. -/
theorem ext_transfer_capacity_witness :
    engineRun loopback (xtsZero (some [0])) sampleOps = some sampleState ∧
      sampleState.in_bits ≤ 2 * CPLD_MAX_BYTES ∧ sampleState.out_bits ≤ 8 * CPLD_MAX_BYTES ∧
      writeBytes sampleState.in_bits ≤ CPLD_MAX_BYTES ∧
      readBytes sampleState.out_bits ≤ CPLD_MAX_BYTES ∧
      sampleState.out_bits ≤ sampleState.in_bits ∧
      sampleState.buf.length = sampleState.in_bits :=
  have h : engineRun loopback (xtsZero (some [0])) sampleOps = some sampleState := by decide
  ⟨h, ext_transfer_capacity loopback (some [0]) sampleOps sampleState h⟩

/-- Every state `txrx_block` passes through, after any number `k` of its
operations, fits the buffer. -/
theorem txrx_block_states_fit (xpcu_shift : Channel) (tdi : List Nat) (out : Option (List Nat))
    (n : Nat) (last : Bool) (k : Nat) (s : xpc_ext_transfer_state_t)
    (h : engineRun xpcu_shift (xtsZero out) ((blockOps tdi n last).take k) = some s) : s.fits :=
  engineRun_fits xpcu_shift _ (xtsZero out) s (xtsZero_fits out) h

/-- Every state `tx_tms` passes through, after any number `k` of its operations,
fits the buffer. -/
theorem tx_tms_states_fit (xpcu_shift : Channel) (pat : List Nat) (n k : Nat)
    (s : xpc_ext_transfer_state_t)
    (h : engineRun xpcu_shift (xtsZero none) ((tmsOps pat n).take k) = some s) : s.fits :=
  engineRun_fits xpcu_shift _ (xtsZero none) s (xtsZero_fits none) h

/-! ### The batching engine: bit buffers -/

theorem putBit_testBit (byte i j : Nat) (b : Bool) :
    (putBit byte i b).testBit j = if j = i then b else byte.testBit j := by
  unfold putBit
  by_cases hji : j = i
  · subst hji
    cases b <;> simp [Nat.testBit_lor, Nat.testBit_xor, Nat.testBit_and, Nat.testBit_two_pow]
  · have hne : ¬ i = j := fun h => hji h.symm
    cases b <;>
      simp [Nat.testBit_lor, Nat.testBit_xor, Nat.testBit_and, Nat.testBit_two_pow, hji, hne]

theorem length_putBitAt (bytes : List Nat) (pos : Nat) (b : Bool) :
    (putBitAt bytes pos b).length = bytes.length := by
  simp [putBitAt]

theorem getBitAt_putBitAt (bytes : List Nat) (pos q : Nat) (b : Bool)
    (h : pos / 8 < bytes.length) :
    getBitAt (putBitAt bytes pos b) q = if q = pos then b else getBitAt bytes q := by
  unfold getBitAt putBitAt
  rw [List.getD_eq_getElem?_getD, List.getElem?_set]
  by_cases hq : pos / 8 = q / 8
  · rw [if_pos hq, if_pos h, Option.getD_some, putBit_testBit]
    by_cases hm : q % 8 = pos % 8
    · have : q = pos := by omega
      simp [hm, this]
    · have : q ≠ pos := fun h' => hm (by rw [h'])
      rw [if_neg hm, if_neg this, hq, List.getD_eq_getElem?_getD]
  · have : q ≠ pos := fun h' => hq (by rw [h'])
    rw [if_neg hq, if_neg this, List.getD_eq_getElem?_getD]

theorem length_copyBits (bytes dst : List Nat) (off n : Nat) :
    (copyBits bytes dst off n).length = dst.length := by
  induction n with
  | zero => rfl
  | succ n ih => simp [copyBits, length_putBitAt, ih]

theorem getBitAt_copyBits (bytes dst : List Nat) (off n q : Nat)
    (h : off + n ≤ 8 * dst.length) :
    getBitAt (copyBits bytes dst off n) q =
      if off ≤ q ∧ q < off + n then getBitAt bytes (q - off) else getBitAt dst q := by
  induction n with
  | zero =>
    have : ¬ (off ≤ q ∧ q < off + 0) := by omega
    rw [if_neg this]
    rfl
  | succ n ih =>
    have hin : (off + n) / 8 < (copyBits bytes dst off n).length := by
      rw [length_copyBits]
      omega
    simp only [copyBits]
    rw [getBitAt_putBitAt _ _ _ _ hin, ih (by omega)]
    by_cases hq : q = off + n
    · subst hq
      have h1 : off ≤ off + n ∧ off + n < off + (n + 1) := by omega
      have h2 : off + n - off = n := by omega
      simp [h1, h2]
    · rw [if_neg hq]
      by_cases h1 : off ≤ q ∧ q < off + n
      · have h2 : off ≤ q ∧ q < off + (n + 1) := by omega
        rw [if_pos h1, if_pos h2]
      · have h2 : ¬ (off ≤ q ∧ q < off + (n + 1)) := by omega
        rw [if_neg h1, if_neg h2]

theorem bitsToByte_testBit (f : Nat → Bool) (i : Nat) (hi : i < 8) :
    (bitsToByte f).testBit i = f i := by
  have hr : List.range 8 = [0, 1, 2, 3, 4, 5, 6, 7] := by decide
  unfold bitsToByte
  rw [hr]
  simp only [List.foldl_cons, List.foldl_nil, putBit_testBit]
  have : i = 0 ∨ i = 1 ∨ i = 2 ∨ i = 3 ∨ i = 4 ∨ i = 5 ∨ i = 6 ∨ i = 7 := by omega
  rcases this with h | h | h | h | h | h | h | h <;> subst h <;> simp

theorem length_packBits (bs : List Bool) : (packBits bs).length = readBytes bs.length := by
  simp [packBits]

theorem getBitAt_packBits (bs : List Bool) (t : Nat) :
    getBitAt (packBits bs) t = bs.getD t false := by
  unfold getBitAt packBits
  rw [List.getD_eq_getElem?_getD, List.getElem?_map]
  by_cases h : t / 8 < readBytes bs.length
  · rw [List.getElem?_range h]
    simp only [Option.map_some', Option.getD_some]
    rw [bitsToByte_testBit _ _ (Nat.mod_lt _ (by norm_num))]
    congr 1
    omega
  · have hlen : bs.length ≤ t := by
      unfold readBytes at h
      omega
    have h1 : (List.range (readBytes bs.length))[t / 8]? = none := by
      rw [List.getElem?_eq_none_iff]
      simp only [List.length_range]
      omega
    rw [h1]
    simp only [Option.map_none', Option.getD_none, Nat.zero_testBit]
    rw [List.getD_eq_getElem?_getD, List.getElem?_eq_none_iff.mpr hlen]
    rfl

/-! ### The batching engine: order preservation over the loopback channel -/

theorem engineRun_append (chan : Channel) (a b : List EngineOp) (s : xpc_ext_transfer_state_t) :
    engineRun chan s (a ++ b) = (engineRun chan s a).bind (fun t => engineRun chan t b) := by
  induction a generalizing s with
  | nil => rfl
  | cons op rest ih =>
    simp only [List.cons_append, engineRun]
    cases engineStep chan s op with
    | none => rfl
    | some next => exact ih next

theorem getBitAt_zeros (m q : Nat) : getBitAt (List.replicate m 0) q = false := by
  unfold getBitAt
  rw [List.getD_eq_getElem?_getD]
  by_cases h : q / 8 < m
  · simp [List.getElem?_replicate, h]
  · simp [List.getElem?_replicate, h]

theorem blockInv_start (tdi : List Nat) (n : Nat) :
    BlockInv tdi n 0 (xtsZero (some (List.replicate (readBytes n) 0))) :=
  ⟨_, rfl, by simp, rfl, Nat.zero_le _, rfl, fun t ht => absurd ht (by simp [xtsZero]),
    fun q => by simp [getBitAt_zeros, xtsZero]⟩

theorem blockInv_flush (tdi : List Nat) (n i : Nat) (s : xpc_ext_transfer_state_t)
    (h : BlockInv tdi n i s) :
    ∃ t, xpcu_do_ext_transfer loopback s = some t ∧ BlockInv tdi n i t ∧
      t.in_bits = 0 ∧ t.out_bits = 0 ∧ t.out_done = i := by
  obtain ⟨dst, h1, h2, h3, h4, h5, h6, h7⟩ := h
  have hlen : ¬ (packBits (capturedTdi s)).length < readBytes s.out_bits := by
    rw [length_packBits, h5]
    exact Nat.lt_irrefl _
  have hrun : xpcu_do_ext_transfer loopback s =
      some { in_bits := 0, out_bits := 0, out_done := s.out_done + s.out_bits,
             out := some (copyBits (packBits (capturedTdi s)) dst s.out_done s.out_bits),
             buf := [] } := by
    have hlen' : ¬ (packBits (List.map (fun q => q.tdi)
        (List.filter (fun q => q.capture) s.buf))).length < readBytes s.out_bits := hlen
    unfold xpcu_do_ext_transfer loopback
    simp only
    rw [if_neg hlen', h1]
    rfl
  refine ⟨_, hrun, ⟨_, rfl, ?_, h3, h4, rfl, fun t ht => absurd ht (Nat.not_lt_zero _), ?_⟩,
    rfl, rfl, h3⟩
  · rw [length_copyBits, h2]
  · intro q
    have hb : s.out_done + s.out_bits ≤ 8 * dst.length := by
      rw [h2]
      unfold readBytes
      omega
    rw [getBitAt_copyBits _ _ _ _ _ hb]
    simp only
    by_cases hq : s.out_done ≤ q ∧ q < s.out_done + s.out_bits
    · rw [if_pos hq, getBitAt_packBits, h6 _ (by omega)]
      have e1 : s.out_done + (q - s.out_done) = q := by omega
      have e2 : q < s.out_done + s.out_bits := hq.2
      simp [e1, e2]
    · rw [if_neg hq, h7]
      by_cases hd : q < s.out_done
      · have : q < s.out_done + s.out_bits := by omega
        simp [hd, this]
      · have : ¬ q < s.out_done + s.out_bits := by omega
        simp [hd, this]

theorem blockInv_add_real (tdi : List Nat) (n i : Nat) (s : xpc_ext_transfer_state_t) (tms : Bool)
    (h : BlockInv tdi n i s) (hi : i < n) :
    BlockInv tdi n (i + 1) (xpcu_add_bit_for_ext_transfer s (getBitAt tdi i) tms true) := by
  obtain ⟨dst, h1, h2, h3, h4, h5, h6, h7⟩ := h
  have hcap : capturedTdi (xpcu_add_bit_for_ext_transfer s (getBitAt tdi i) tms true) =
      capturedTdi s ++ [getBitAt tdi i] := by
    simp [capturedTdi, xpcu_add_bit_for_ext_transfer, h1, List.filter_append]
  have hout : (xpcu_add_bit_for_ext_transfer s (getBitAt tdi i) tms true).out_bits =
      s.out_bits + 1 := by
    simp [xpcu_add_bit_for_ext_transfer, h1]
  refine ⟨dst, h1, h2, ?_, hi, ?_, ?_, h7⟩
  · rw [hout]
    show s.out_done + (s.out_bits + 1) = i + 1
    omega
  · rw [hcap, hout, List.length_append, h5]
    rfl
  · intro t ht
    rw [hout] at ht
    rw [hcap]
    show (capturedTdi s ++ [getBitAt tdi i]).getD t false = getBitAt tdi (s.out_done + t)
    by_cases htl : t < s.out_bits
    · rw [List.getD_append _ _ _ _ (by rw [h5]; exact htl)]
      exact h6 t htl
    · have hte : t = s.out_bits := by omega
      rw [List.getD_append_right _ _ _ _ (by rw [h5]; omega), h5, hte, Nat.sub_self, h3]
      rfl

theorem blockInv_add_pad (tdi : List Nat) (n i : Nat) (s : xpc_ext_transfer_state_t)
    (h : BlockInv tdi n i s) :
    BlockInv tdi n i (xpcu_add_bit_for_ext_transfer s false false false) := by
  obtain ⟨dst, h1, h2, h3, h4, h5, h6, h7⟩ := h
  have hcap : capturedTdi (xpcu_add_bit_for_ext_transfer s false false false) =
      capturedTdi s := by
    simp [capturedTdi, xpcu_add_bit_for_ext_transfer, List.filter_append]
  have hout : (xpcu_add_bit_for_ext_transfer s false false false).out_bits = s.out_bits := by
    simp [xpcu_add_bit_for_ext_transfer]
  refine ⟨dst, h1, h2, ?_, h4, ?_, ?_, h7⟩
  · rw [hout]
    exact h3
  · rw [hcap, hout]
    exact h5
  · intro t ht
    rw [hout] at ht
    rw [hcap]
    exact h6 t ht

theorem blockInv_queue (tdi : List Nat) (n i : Nat) (s : xpc_ext_transfer_state_t) (tms : Bool)
    (h : BlockInv tdi n i s) (hi : i < n) :
    ∃ t, engineStep loopback s (EngineOp.queue (getBitAt tdi i) tms) = some t ∧
      BlockInv tdi n (i + 1) t := by
  simp only [engineStep]
  split
  · obtain ⟨f, hf, hinv, _⟩ := blockInv_flush tdi n i s h
    rw [hf]
    exact ⟨_, rfl, blockInv_add_real tdi n i f tms hinv hi⟩
  · exact ⟨_, rfl, blockInv_add_real tdi n i s tms h hi⟩

theorem blockInv_pad (tdi : List Nat) (n i : Nat) (s : xpc_ext_transfer_state_t)
    (h : BlockInv tdi n i s) :
    ∃ t, engineStep loopback s EngineOp.pad = some t ∧ BlockInv tdi n i t := by
  simp only [engineStep]
  split
  · exact ⟨_, rfl, h⟩
  · exact ⟨_, rfl, blockInv_add_pad tdi n i s h⟩

theorem blockInv_queueOps (tdi : List Nat) (n : Nat) (last : Bool) (i : Nat) (hi : i ≤ n) :
    ∃ s, engineRun loopback (xtsZero (some (List.replicate (readBytes n) 0)))
        (queueOps tdi n last i) = some s ∧ BlockInv tdi n i s := by
  induction i with
  | zero => exact ⟨_, rfl, blockInv_start tdi n⟩
  | succ k ih =>
    obtain ⟨s, hs, hinv⟩ := ih (by omega)
    obtain ⟨t, ht, hinv'⟩ := blockInv_queue tdi n k s (last && decide (k + 1 = n)) hinv (by omega)
    refine ⟨t, ?_, hinv'⟩
    unfold queueOps at hs ⊢
    rw [List.range_succ, List.map_append, engineRun_append, hs]
    simp only [List.map_cons, List.map_nil, engineRun]
    show (match engineStep loopback s
        (EngineOp.queue (getBitAt tdi k) (last && decide (k + 1 = n))) with
      | none => none
      | some next => some next) = some t
    rw [ht]

theorem blockInv_finalFlush (tdi : List Nat) (n i : Nat) (s : xpc_ext_transfer_state_t)
    (h : BlockInv tdi n i s) :
    ∃ t, engineRun loopback s finalFlush = some t ∧ BlockInv tdi n i t ∧
      t.in_bits = 0 ∧ t.out_bits = 0 ∧ t.out_done = i := by
  obtain ⟨s1, e1, h1⟩ := blockInv_pad tdi n i s h
  obtain ⟨s2, e2, h2⟩ := blockInv_pad tdi n i s1 h1
  obtain ⟨s3, e3, h3⟩ := blockInv_pad tdi n i s2 h2
  obtain ⟨t, e4, h4⟩ := blockInv_flush tdi n i s3 h3
  refine ⟨t, ?_, h4⟩
  have e4' : engineStep loopback s3 EngineOp.flush = some t := e4
  simp only [finalFlush, engineRun, e1, e2, e3, e4']

/-- C1: a `txrx_block` of `n` bits through the loopback channel (TDO echoes
TDI), for every bit count `n` (so for `1 ≤ n ≤ 8192`) and every TDI buffer,
completes; it has then written exactly `n` captured bits (`out_done = n`,
nothing left queued) into the `ceil(n/8)` bytes of `tdo`; captured bit `k`
equals TDI bit `k` for every `k < n`, LSB first within each byte, and the bits
of `tdo` from `n` on are zero. -/
theorem txrx_block_loopback_order (tdi : List Nat) (n : Nat) (last : Bool) :
    ∃ s tdo, txrx_block loopback tdi true (n : Int) last = some s ∧ s.out = some tdo ∧
      s.out_done = n ∧ s.in_bits = 0 ∧ s.out_bits = 0 ∧ tdo.length = readBytes n ∧
      (∀ k, k < n → getBitAt tdo k = getBitAt tdi k) ∧
      (∀ k, n ≤ k → getBitAt tdo k = false) := by
  by_cases hn : n = 0
  · subst hn
    refine ⟨_, [], rfl, rfl, rfl, rfl, rfl, rfl, fun k hk => absurd hk (Nat.not_lt_zero _), ?_⟩
    intro k _
    simp [getBitAt]
  · obtain ⟨s, hs, hinv⟩ := blockInv_queueOps tdi n last n (Nat.le_refl _)
    obtain ⟨t, ht, ⟨dst, h1, h2, _, _, _, _, h7⟩, h8, h9, h10⟩ := blockInv_finalFlush tdi n n s hinv
    have hpos : ¬ ((n : Int) ≤ 0) := by omega
    have hrun : txrx_block loopback tdi true (n : Int) last = some t := by
      unfold txrx_block blockOps
      rw [if_neg hpos]
      simp only [Int.toNat_natCast, if_true]
      unfold queueOps at hs
      rw [engineRun_append, hs]
      exact ht
    refine ⟨t, dst, hrun, h1, h10, h8, h9, h2, ?_, ?_⟩
    · intro k hk
      rw [h7, h10]
      simp [hk]
    · intro k hk
      rw [h7, h10]
      have : ¬ k < n := by omega
      simp [this]

/-! ### `detect_chain` against `open_cable` -/

/-- On a connected cable `detectchain` returns, and its return code follows the
test `if (j->jtag->getChain(1))` of the source: `TCL_ERROR` exactly when the
detection finds a device, `TCL_OK` exactly when it finds none. -/
theorem detectchain_code (j : TclJTAG) (jt : Jtag) (e : Env)
    (hc : j.connected = true) (hj : j.jtag = some jt) :
    ∃ r, detectchain (some j) e = some r ∧
      r.calls = [JtagCall.detect_chain, JtagCall.getChainDetect] ∧
      (r.code = TCL_ERROR ↔ e.chain ≠ 0) ∧ (r.code = TCL_OK ↔ e.chain = 0) := by
  have hne : TCL_ERROR ≠ TCL_OK := by decide
  unfold detectchain
  simp only [GetJTAG, hc, hj, Bool.not_true, Bool.false_eq_true, if_false, detect_chain]
  by_cases h : e.chain = 0
  · rw [if_neg (by simpa using h)]
    exact ⟨_, rfl, rfl, ⟨fun h' => absurd h'.symm hne, fun h' => absurd h h'⟩,
      ⟨fun _ => h, fun _ => rfl⟩⟩
  · rw [if_pos h]
    exact ⟨_, rfl, rfl, ⟨fun _ => h, fun _ => rfl⟩,
      ⟨fun h' => absurd h' hne, fun h' => absurd h' h⟩⟩

/-- Once `getIO` has succeeded on a known cable, `opencable` follows the test
`if (!j->jtag->getChain())`: `TCL_ERROR` exactly when the detection finds no
device, `TCL_OK` exactly when it finds one. -/
theorem opencable_chain_code (j : TclJTAG) (cmd name : Tcl_Obj) (e : Env)
    (hcable : e.getCable name.str = 0) (hio : e.getIO_res = 0) :
    ((opencable (some j) [cmd, name] e).code = TCL_ERROR ↔ e.chain = 0) ∧
      ((opencable (some j) [cmd, name] e).code = TCL_OK ↔ e.chain ≠ 0) := by
  have hne : TCL_ERROR ≠ TCL_OK := by decide
  unfold opencable
  simp only [hcable, hio, ne_eq, not_true_eq_false, if_false, detect_chain]
  by_cases h : e.chain = 0
  · rw [if_pos h]
    exact ⟨⟨fun _ => h, fun _ => rfl⟩, ⟨fun h' => absurd h' hne, fun h' => absurd h h'⟩⟩
  · rw [if_neg h]
    exact ⟨⟨fun h' => absurd h'.symm hne, fun h' => absurd h' h⟩, ⟨fun _ => h, fun _ => rfl⟩⟩

/-- C11, the code at the failing input: on the cable that `open_cable` has just
connected with a chain of one device, `detect_chain` finding that one device
returns `TCL_ERROR`, where `open_cable` on the same detection returns `TCL_OK`;
and `detect_chain` finding no device returns `TCL_OK`, where `open_cable`
returns `TCL_ERROR`. -/
theorem detectchain_inverts_opencable :
    (detectchain (some (openedObj 1)) (loopEnv 1)).map (fun r => r.code) = some TCL_ERROR ∧
    (opencable (some freshObj) [wordObj "open_cable", wordObj "xpc"] (loopEnv 1)).code
      = TCL_OK ∧
    (detectchain (some (openedObj 1)) (loopEnv 0)).map (fun r => r.code) = some TCL_OK ∧
    (opencable (some freshObj) [wordObj "open_cable", wordObj "xpc"] (loopEnv 0)).code
      = TCL_ERROR :=
  ⟨rfl, rfl, rfl, rfl⟩

end Xc3sprog
